import Mathlib

/-!
Verification development for the go-ghpr library (pkg/ghpr), a shallow
embedding of its status-polling / backoff engine and PR workflow
orchestration, translated from `pkg/ghpr/pr.go` and `pkg/ghpr/ghpr.go`.

External effects (GitHub API calls, the context cancellation signal, the
jitter randomness of the backoff library) are supplied as explicit oracle
parameters; the polling loop is given a fuel bound since the Go loop may
run forever.
-/

/-- A named check, as in `ghpr.Check`: `Name` is matched against a reported
status context and `CheckType` is the string kind (`"status"` or
`"action"`). -/
structure Check where
  Name : String
  CheckType : String
deriving DecidableEq

/-- A reported commit status entry (`github.RepoStatus` projected to the two
fields read by the code via `GetContext` / `GetState`). -/
structure RepoStatus where
  context : String
  state : String
deriving DecidableEq

/-- Model of `ghpr.BackoffStrategy`: poll interval configuration handed to
`waitForChecks`.  Durations are rationals (nanoseconds, mirroring
`time.Duration` values embedded into the reals the float arithmetic of the
backoff library works on). -/
structure BackoffStrategy where
  MinPollTime : ℚ
  MaxPollTime : ℚ
  PollBackoffFactor : ℚ
deriving DecidableEq

/-- Function `statusSuccessful` (pr.go): scan the reported entries in order and
return the state of the first entry whose context equals `targetStatus`;
`none` models the `"Could not find target context in commit status list"`
error return. -/
def statusSuccessful (targetStatus : String) : List RepoStatus → Option String
  | [] => none
  | status :: rest =>
    if status.context ≠ targetStatus then
      statusSuccessful targetStatus rest
    else
      some status.state

/-- Result of the inner `for _, status := range targetStatuses` loop of
`waitForChecks`: either an early `return` on a failed check, or loop
completion carrying the final `statusesSuccessful` counter. -/
inductive InnerResult where
  | failedCheck (name : String)
  | finished (successCount : Nat)
deriving DecidableEq

/-- The inner loop of `waitForChecks` (pr.go lines 156-170): for each target
status, look up its first matching entry; `break` when it is absent, `return`
the failure when its state is `"failure"` or `"error"`, count it when
`"success"`, and otherwise move on without counting. -/
def innerLoop (statuses : List RepoStatus) (acc : Nat) :
    List String → InnerResult
  | [] => .finished acc
  | t :: ts =>
    match statusSuccessful t statuses with
    | none => .finished acc
    | some result =>
      if result = "success" then
        innerLoop statuses (acc + 1) ts
      else if result = "failure" ∨ result = "error" then
        .failedCheck t
      else
        innerLoop statuses acc ts

/-- Outcome of one tick's evaluation of the required checks. -/
inductive TickOutcome where
  | allSuccess
  | stillPending
  | failed (name : String)
deriving DecidableEq

/-- One tick's check evaluation inside `waitForChecks`: run the inner loop
and compare the success counter against the number of required status
checks (pr.go line 172). -/
def evalTick (targets : List String) (statuses : List RepoStatus) :
    TickOutcome :=
  match innerLoop statuses 0 targets with
  | .failedCheck t => .failed t
  | .finished acc =>
    if acc = targets.length then .allSuccess else .stillPending

/-- Result of the check-classification loop of `waitForChecks` (pr.go lines
131-141): either the accumulated `targetStatuses` and `targetActions`
lists, or the `"Unknown check type"` early return. -/
inductive ClassifyResult where
  | ok (targetStatuses targetActions : List String)
  | unknownType
deriving DecidableEq

/-- The classification loop of `waitForChecks`: partition check names by
`CheckType`, returning the unknown-type error when a check is neither
`"status"` nor `"action"`. -/
def classify : List Check → ClassifyResult
  | [] => .ok [] []
  | c :: cs =>
    if c.CheckType = "status" then
      match classify cs with
      | .ok ss as => .ok (c.Name :: ss) as
      | .unknownType => .unknownType
    else if c.CheckType = "action" then
      match classify cs with
      | .ok ss as => .ok ss (c.Name :: as)
      | .unknownType => .unknownType
    else
      .unknownType

/-- Terminal result of `waitForChecks`.  `outOfFuel` marks runs that exceed
the fuel bound of the embedding (the Go loop would still be polling). -/
inductive WaitResult where
  | success
  | unknownCheckType
  | unsupportedCheckType
  | fetchError (msg : String)
  | checkFailed (name : String)
  | timedOut
  | outOfFuel
deriving DecidableEq

/-- The `maxInt64` constant of the jpillora/backoff library:
`float64(math.MaxInt64 - 512)`. -/
def jmaxInt64 : ℚ := 2 ^ 63 - 512

/-- Model of `Backoff.ForAttempt` of the jpillora/backoff library, as configured by
`waitForChecks` (pr.go lines 124-129, `Jitter: true`): apply the `<= 0`
defaults, return `Max` when `Min >= Max`, compute
`durf = min * factor^attempt`, resample `durf` to
`rand*(durf-min) + min` (jitter, with jitter draw `r`), guard against
int64 overflow, truncate to an integer duration and clamp to
`[min, max]`. -/
def forAttempt (bmin bmax factor : ℚ) (attempt : Nat) (r : ℚ) : ℚ :=
  let bmin := if bmin ≤ 0 then 100000000 else bmin
  let bmax := if bmax ≤ 0 then 10000000000 else bmax
  if bmax ≤ bmin then bmax
  else
    let factor := if factor ≤ 0 then 2 else factor
    let durf := bmin * factor ^ attempt
    let durf := r * (durf - bmin) + bmin
    if jmaxInt64 < durf then bmax
    else
      let dur : ℚ := (⌊durf⌋ : ℤ)
      if dur < bmin then bmin
      else if bmax < dur then bmax
      else dur

/-- The sleep interval produced by the `n`-th call (0-based) to
`b.Duration()` inside `waitForChecks`, where `r n` is the jitter draw of
that call (`rand.Float64()`). -/
def backoffSeq (s : BackoffStrategy) (r : Nat → ℚ) (n : Nat) : ℚ :=
  forAttempt s.MinPollTime s.MaxPollTime s.PollBackoffFactor n (r n)

/-- Observable run of `waitForChecks`: terminal result, number of
status-listing fetches performed, and the list of sleep intervals
actually slept through. -/
structure RunStats where
  result : WaitResult
  fetches : Nat
  sleeps : List ℚ
deriving DecidableEq

/-- The polling loop of `waitForChecks` (pr.go lines 147-181), tick `n`
onwards with the given fuel.  `fetch n` is the result of the `ListStatuses`
call of tick `n` (`.error` when the call fails), `ctxDone n` tells whether
the context's cancellation signal has fired by the sleep boundary ending
tick `n`. -/
def pollLoop (fetch : Nat → Except String (List RepoStatus))
    (ctxDone : Nat → Bool) (targets : List String) (s : BackoffStrategy)
    (r : Nat → ℚ) : Nat → Nat → RunStats
  | 0, _ => ⟨.outOfFuel, 0, []⟩
  | fuel + 1, n =>
    match fetch n with
    | .error e => ⟨.fetchError e, 1, []⟩
    | .ok statuses =>
      match evalTick targets statuses with
      | .failed t => ⟨.checkFailed t, 1, []⟩
      | .allSuccess => ⟨.success, 1, []⟩
      | .stillPending =>
        if ctxDone n then ⟨.timedOut, 1, []⟩
        else
          let rest := pollLoop fetch ctxDone targets s r fuel (n + 1)
          ⟨rest.result, rest.fetches + 1, backoffSeq s r n :: rest.sleeps⟩

/-- Model of `waitForChecks` (pr.go lines 123-182): classify the checks, reject
unknown kinds, reject any `action` check as unsupported before polling,
then run the polling loop from tick 0. -/
def waitForChecks (checks : List Check) (s : BackoffStrategy)
    (r : Nat → ℚ) (fetch : Nat → Except String (List RepoStatus))
    (ctxDone : Nat → Bool) (fuel : Nat) : RunStats :=
  match classify checks with
  | .unknownType => ⟨.unknownCheckType, 0, []⟩
  | .ok targetStatuses targetActions =>
    if targetActions.length > 0 then ⟨.unsupportedCheckType, 0, []⟩
    else pollLoop fetch ctxDone targetStatuses s r fuel 0

/-! ### Inner-loop lemmas -/

/-- When some required check `t` has no matching entry, the inner loop can
only complete with a success counter strictly below `acc` plus the number
of targets: the absent check is never counted. -/
lemma innerLoop_finished_lt {statuses : List RepoStatus} {t : String}
    (hnone : statusSuccessful t statuses = none) :
    ∀ (targets : List String) (acc c : Nat), t ∈ targets →
      innerLoop statuses acc targets = .finished c →
      c < acc + targets.length := by
  intro targets
  induction targets with
  | nil => intro acc c ht; cases ht
  | cons u ts ih =>
    intro acc c ht hrun
    simp only [innerLoop] at hrun
    cases hu : statusSuccessful u statuses with
    | none =>
      rw [hu] at hrun
      cases hrun
      simp [Nat.lt_add_of_pos_right]
    | some s =>
      simp only [hu] at hrun
      have hts : t ∈ ts := by
        rcases List.mem_cons.mp ht with h | h
        · exact absurd hnone (by rw [h, hu]; simp)
        · exact h
      by_cases hs : s = "success"
      · rw [if_pos hs] at hrun
        have := ih (acc + 1) c hts hrun
        simp only [List.length_cons]
        omega
      · rw [if_neg hs] at hrun
        by_cases hf : s = "failure" ∨ s = "error"
        · rw [if_pos hf] at hrun; cases hrun
        · rw [if_neg hf] at hrun
          have := ih acc c hts hrun
          simp only [List.length_cons]
          omega

/-- When no required check has a matching entry in a failed or errored
state, the inner loop never takes the early failure return. -/
lemma innerLoop_no_fail {statuses : List RepoStatus} :
    ∀ (targets : List String) (acc : Nat),
      (∀ u ∈ targets, ∀ s, statusSuccessful u statuses = some s →
        s ≠ "failure" ∧ s ≠ "error") →
      ∃ c, innerLoop statuses acc targets = .finished c := by
  intro targets
  induction targets with
  | nil => intro acc _; exact ⟨acc, rfl⟩
  | cons u ts ih =>
    intro acc hnf
    cases hu : statusSuccessful u statuses with
    | none => exact ⟨acc, by simp only [innerLoop, hu]⟩
    | some s =>
      have hne := hnf u (List.mem_cons_self u ts) s hu
      have hnf' : ∀ v ∈ ts, ∀ s, statusSuccessful v statuses = some s →
          s ≠ "failure" ∧ s ≠ "error" :=
        fun v hv => hnf v (List.mem_cons_of_mem u hv)
      simp only [innerLoop, hu]
      by_cases hs : s = "success"
      · rw [if_pos hs]; exact ih (acc + 1) hnf'
      · rw [if_neg hs, if_neg (by tauto)]
        exact ih acc hnf'

/-! ### C1 -/

/-- C1, counterexample: with required status checks `A` then `B` and a
single reported entry putting `B` in state `failure`, the tick evaluation
is `stillPending` (the inner loop breaks on the absent `A` before ever
looking at `B`), not the failed outcome naming `B` the claim requires,
and the whole `waitForChecks` run times out instead of failing. -/
theorem evalTick_missing_masks_failure :
    statusSuccessful "B" [⟨"B", "failure"⟩] = some "failure" ∧
    statusSuccessful "A" [⟨"B", "failure"⟩] = none ∧
    evalTick ["A", "B"] [⟨"B", "failure"⟩] = .stillPending ∧
    TickOutcome.stillPending ≠ .failed "B" ∧
    waitForChecks [⟨"A", "status"⟩, ⟨"B", "status"⟩] ⟨1, 2, 2⟩
      (fun _ => 0) (fun _ => .ok [⟨"B", "failure"⟩]) (fun _ => true) 1 =
      ⟨.timedOut, 1, []⟩ := by
  refine ⟨by decide, by decide, by decide, by decide, by decide⟩

/-- C1, amended: if the authoritative entry for a required status check `t`
has state `failure` or `error`, and every required check listed before `t`
has a matching entry (in any non-failed state, e.g. still pending), then
the tick evaluation returns the failed outcome naming `t`, whatever checks
follow `t` (those may be pending or entirely absent). -/
theorem evalTick_failed_short_circuit (pre post : List String) (t : String)
    (statuses : List RepoStatus)
    (hpre : ∀ c ∈ pre, ∃ s, statusSuccessful c statuses = some s ∧
      s ≠ "failure" ∧ s ≠ "error")
    (ht : ∃ s, statusSuccessful t statuses = some s ∧
      (s = "failure" ∨ s = "error")) :
    evalTick (pre ++ t :: post) statuses = .failed t := by
  have key : ∀ (acc : Nat),
      innerLoop statuses acc (pre ++ t :: post) = .failedCheck t := by
    induction pre with
    | nil =>
      intro acc
      obtain ⟨s, hs, hfe⟩ := ht
      have hsucc : s ≠ "success" := by
        rcases hfe with h | h <;> rw [h] <;> decide
      simp only [List.nil_append, innerLoop, hs]
      rw [if_neg hsucc, if_pos hfe]
    | cons c cs ih =>
      intro acc
      obtain ⟨s, hs, hf, he⟩ := hpre c (List.mem_cons_self c cs)
      have ih' := ih (fun d hd => hpre d (List.mem_cons_of_mem c hd))
      simp only [List.cons_append, innerLoop, hs]
      by_cases hsucc : s = "success"
      · rw [if_pos hsucc]; exact ih' (acc + 1)
      · rw [if_neg hsucc, if_neg (by tauto)]; exact ih' acc
  simp only [evalTick, key 0]

/-- C1, witness: required checks `A`, `B`, `C` with `A` matched in state
`pending`, `B` failed and `C` absent evaluate to the failed outcome
naming `B`. -/
theorem evalTick_failed_short_circuit_witness :
    evalTick ["A", "B", "C"] [⟨"A", "pending"⟩, ⟨"B", "failure"⟩] =
      .failed "B" :=
  evalTick_failed_short_circuit ["A"] ["C"] "B"
    [⟨"A", "pending"⟩, ⟨"B", "failure"⟩]
    (by
      intro c hc
      have : c = "A" := by simpa using hc
      subst this
      exact ⟨"pending", by decide, by decide, by decide⟩)
    ⟨"failure", by decide, Or.inl rfl⟩

/-! ### C6 -/

/-- C6: the state used for a required check is the state of the first
reported entry whose context equals the check's name; the entries after
that first match (`post`, which may contain older entries for the same
context) never affect the result. -/
theorem statusSuccessful_first_match (t : String) (pre post : List RepoStatus)
    (e : RepoStatus) (hpre : ∀ x ∈ pre, x.context ≠ t)
    (he : e.context = t) :
    statusSuccessful t (pre ++ e :: post) = some e.state := by
  induction pre with
  | nil =>
    rw [List.nil_append, statusSuccessful, if_neg (by simp [he])]
  | cons x xs ih =>
    rw [List.cons_append, statusSuccessful,
      if_pos (hpre x (List.mem_cons_self x xs))]
    exact ih fun y hy => hpre y (List.mem_cons_of_mem x hy)

/-- C6, witness: with a most-recent `pending` entry for context `ci`
followed by an older `failure` entry for the same context, the evaluated
state of check `ci` is `pending`. -/
theorem statusSuccessful_first_match_witness :
    statusSuccessful "ci"
      [⟨"other", "success"⟩, ⟨"ci", "pending"⟩, ⟨"ci", "failure"⟩] =
      some "pending" :=
  statusSuccessful_first_match "ci" [⟨"other", "success"⟩]
    [⟨"ci", "failure"⟩] ⟨"ci", "pending"⟩
    (by intro x hx; have : x = ⟨"other", "success"⟩ := by simpa using hx
        subst this; decide)
    rfl

/-! ### C7 -/

/-- C7: a required status check with no matching reported entry is treated
as pending, never surfaced as an error: the tick evaluation cannot declare
overall success, and when no required check is in a failed or errored
state it evaluates to `stillPending`, making the loop continue to the next
poll. -/
theorem evalTick_absent_pending (targets : List String)
    (statuses : List RepoStatus) (t : String) (ht : t ∈ targets)
    (hnone : statusSuccessful t statuses = none) :
    evalTick targets statuses ≠ .allSuccess ∧
    ((∀ u ∈ targets, ∀ s, statusSuccessful u statuses = some s →
        s ≠ "failure" ∧ s ≠ "error") →
      evalTick targets statuses = .stillPending) := by
  constructor
  · cases hrun : innerLoop statuses 0 targets with
    | failedCheck u => simp [evalTick, hrun]
    | finished c =>
      have := innerLoop_finished_lt hnone targets 0 c ht hrun
      simp only [evalTick, hrun]
      rw [if_neg (by omega)]
      simp
  · intro hnf
    obtain ⟨c, hc⟩ := innerLoop_no_fail targets 0 hnf
    have := innerLoop_finished_lt hnone targets 0 c ht hc
    simp only [evalTick, hc]
    rw [if_neg (by omega)]

/-- C7, witness: a single required check `A` with an empty reported list
evaluates to `stillPending`, not `allSuccess`. -/
theorem evalTick_absent_pending_witness :
    evalTick ["A"] [] = .stillPending ∧ evalTick ["A"] [] ≠ .allSuccess :=
  ⟨(evalTick_absent_pending ["A"] [] "A" (by decide) rfl).2
      (by intro u _ s hs; exact absurd hs (by simp [statusSuccessful])),
    (evalTick_absent_pending ["A"] [] "A" (by decide) rfl).1⟩

/-! ### Polling-loop lemmas -/

/-- Running the polling loop through `k` pending, uncancelled ticks reaches
tick `n + k` having performed `k` additional fetches. -/
lemma pollLoop_skip (fetch : Nat → Except String (List RepoStatus))
    (ctxDone : Nat → Bool) (targets : List String) (s : BackoffStrategy)
    (r : Nat → ℚ) :
    ∀ (k fuel n : Nat),
      (∀ m, m < k → ∃ st, fetch (n + m) = .ok st ∧
        evalTick targets st = .stillPending) →
      (∀ m, m < k → ctxDone (n + m) = false) →
      (pollLoop fetch ctxDone targets s r (k + fuel) n).result =
        (pollLoop fetch ctxDone targets s r fuel (n + k)).result ∧
      (pollLoop fetch ctxDone targets s r (k + fuel) n).fetches =
        (pollLoop fetch ctxDone targets s r fuel (n + k)).fetches + k := by
  intro k
  induction k with
  | zero => intro fuel n _ _; simp
  | succ k ih =>
    intro fuel n hpend hctx
    obtain ⟨st, hst, hev⟩ := hpend 0 (Nat.succ_pos k)
    rw [Nat.add_zero] at hst
    have hc := hctx 0 (Nat.succ_pos k)
    rw [Nat.add_zero] at hc
    have hrec := ih fuel (n + 1)
      (fun m hm => by
        have := hpend (m + 1) (by omega)
        rwa [show n + (m + 1) = n + 1 + m by omega] at this)
      (fun m hm => by
        have := hctx (m + 1) (by omega)
        rwa [show n + (m + 1) = n + 1 + m by omega] at this)
    have hstep : pollLoop fetch ctxDone targets s r (k + 1 + fuel) n =
        ⟨(pollLoop fetch ctxDone targets s r (k + fuel) (n + 1)).result,
          (pollLoop fetch ctxDone targets s r (k + fuel) (n + 1)).fetches + 1,
          backoffSeq s r n ::
            (pollLoop fetch ctxDone targets s r (k + fuel) (n + 1)).sleeps⟩ := by
      rw [show k + 1 + fuel = (k + fuel) + 1 by omega]
      simp only [pollLoop, hst, hev, hc, Bool.false_eq_true, if_false]
    rw [hstep]
    rw [show n + (k + 1) = n + 1 + k by omega]
    refine ⟨hrec.1, ?_⟩
    show (pollLoop fetch ctxDone targets s r (k + fuel) (n + 1)).fetches + 1 =
      (pollLoop fetch ctxDone targets s r fuel (n + 1 + k)).fetches + (k + 1)
    have h2 := hrec.2
    omega

/-! ### C3 -/

/-- C3: when the cancellation signal first fires at the sleep boundary of
tick `k`, and no tick up to `k` has evaluated to all-successful (each is
still pending on a successful fetch), `waitForChecks` returns the
timed-out error — never success — and performs no fetch beyond the `k + 1`
already made when the signal is observed. -/
theorem waitForChecks_cancelled (checks : List Check)
    (targets : List String) (s : BackoffStrategy) (r : Nat → ℚ)
    (fetch : Nat → Except String (List RepoStatus)) (ctxDone : Nat → Bool)
    (fuel k : Nat) (hclass : classify checks = .ok targets [])
    (hpend : ∀ m, m ≤ k → ∃ st, fetch m = .ok st ∧
      evalTick targets st = .stillPending)
    (hctx : ∀ m, m < k → ctxDone m = false) (hk : ctxDone k = true)
    (hfuel : k < fuel) :
    (waitForChecks checks s r fetch ctxDone fuel).result = .timedOut ∧
    (waitForChecks checks s r fetch ctxDone fuel).fetches = k + 1 := by
  have hwrap : waitForChecks checks s r fetch ctxDone fuel =
      pollLoop fetch ctxDone targets s r fuel 0 := by
    simp [waitForChecks, hclass]
  obtain ⟨fk, hfk⟩ : ∃ fk, fuel = k + (fk + 1) := ⟨fuel - k - 1, by omega⟩
  have hskip := pollLoop_skip fetch ctxDone targets s r k (fk + 1) 0
    (fun m hm => by simpa using hpend m (by omega))
    (fun m hm => by simpa using hctx m hm)
  obtain ⟨st, hst, hev⟩ := hpend k (le_refl k)
  have hlast : pollLoop fetch ctxDone targets s r (fk + 1) (0 + k) =
      ⟨.timedOut, 1, []⟩ := by
    simp only [Nat.zero_add, pollLoop, hst, hev, hk, if_true]
  rw [hwrap, hfk]
  rw [hlast] at hskip
  exact ⟨hskip.1, by rw [hskip.2]; exact Nat.add_comm 1 k⟩

/-- C3, witness: a single required check with no reported entries and the
context done at the very first sleep boundary: the run times out after
exactly one fetch. -/
theorem waitForChecks_cancelled_witness :
    (waitForChecks [⟨"A", "status"⟩] ⟨1, 2, 2⟩ (fun _ => 0)
      (fun _ => .ok []) (fun _ => true) 1).result = .timedOut ∧
    (waitForChecks [⟨"A", "status"⟩] ⟨1, 2, 2⟩ (fun _ => 0)
      (fun _ => .ok []) (fun _ => true) 1).fetches = 0 + 1 :=
  waitForChecks_cancelled [⟨"A", "status"⟩] ["A"] ⟨1, 2, 2⟩ (fun _ => 0)
    (fun _ => .ok []) (fun _ => true) 1 0 (by decide)
    (fun m _ => ⟨[], rfl, by decide⟩) (fun m hm => absurd hm (by omega))
    rfl (by decide)

/-! ### C4 -/

/-- C4: on the first tick whose status-listing fetch fails (all earlier
ticks being pending and uncancelled), `waitForChecks` stops right there
with the fetch-error failure carrying the fetch's error: the failing fetch
is the last one performed, so it is not retried and polling does not
continue. -/
theorem waitForChecks_fetch_error (checks : List Check)
    (targets : List String) (s : BackoffStrategy) (r : Nat → ℚ)
    (fetch : Nat → Except String (List RepoStatus)) (ctxDone : Nat → Bool)
    (fuel k : Nat) (e : String) (hclass : classify checks = .ok targets [])
    (hpend : ∀ m, m < k → ∃ st, fetch m = .ok st ∧
      evalTick targets st = .stillPending)
    (hctx : ∀ m, m < k → ctxDone m = false)
    (herr : fetch k = .error e) (hfuel : k < fuel) :
    (waitForChecks checks s r fetch ctxDone fuel).result = .fetchError e ∧
    (waitForChecks checks s r fetch ctxDone fuel).fetches = k + 1 := by
  have hwrap : waitForChecks checks s r fetch ctxDone fuel =
      pollLoop fetch ctxDone targets s r fuel 0 := by
    simp [waitForChecks, hclass]
  obtain ⟨fk, hfk⟩ : ∃ fk, fuel = k + (fk + 1) := ⟨fuel - k - 1, by omega⟩
  have hskip := pollLoop_skip fetch ctxDone targets s r k (fk + 1) 0
    (fun m hm => by simpa using hpend m hm)
    (fun m hm => by simpa using hctx m hm)
  have hlast : pollLoop fetch ctxDone targets s r (fk + 1) (0 + k) =
      ⟨.fetchError e, 1, []⟩ := by
    simp only [Nat.zero_add, pollLoop, herr]
  rw [hwrap, hfk]
  rw [hlast] at hskip
  exact ⟨hskip.1, by rw [hskip.2]; exact Nat.add_comm 1 k⟩

/-- C4, witness: one pending tick, then a failed fetch on tick 1: the run
stops with the wrapped fetch error after exactly two fetches. -/
theorem waitForChecks_fetch_error_witness :
    (waitForChecks [⟨"A", "status"⟩] ⟨1, 2, 2⟩ (fun _ => 0)
      (fun n => if n = 0 then .ok [] else .error "boom") (fun _ => false)
      3).result = .fetchError "boom" ∧
    (waitForChecks [⟨"A", "status"⟩] ⟨1, 2, 2⟩ (fun _ => 0)
      (fun n => if n = 0 then .ok [] else .error "boom") (fun _ => false)
      3).fetches = 1 + 1 :=
  waitForChecks_fetch_error [⟨"A", "status"⟩] ["A"] ⟨1, 2, 2⟩ (fun _ => 0)
    (fun n => if n = 0 then .ok [] else .error "boom") (fun _ => false)
    3 1 "boom" (by decide)
    (fun m hm => by interval_cases m; exact ⟨[], rfl, by decide⟩)
    (fun m _ => rfl) rfl (by decide)

/-! ### C10 -/

/-- C10: with an empty checks list, `waitForChecks` returns success right
after the first status fetch — whatever statuses that fetch reports,
whatever the backoff strategy and jitter — having fetched exactly once
and slept never. -/
theorem waitForChecks_empty_checks (s : BackoffStrategy) (r : Nat → ℚ)
    (fetch : Nat → Except String (List RepoStatus)) (ctxDone : Nat → Bool)
    (fuel : Nat) (st : List RepoStatus) (h0 : fetch 0 = .ok st)
    (hfuel : 0 < fuel) :
    waitForChecks [] s r fetch ctxDone fuel = ⟨.success, 1, []⟩ := by
  obtain ⟨f, rfl⟩ : ∃ f, fuel = f + 1 := ⟨fuel - 1, by omega⟩
  have hev : evalTick [] st = .allSuccess := rfl
  simp only [waitForChecks, classify, List.length_nil, gt_iff_lt,
    Nat.lt_irrefl, if_false, pollLoop, h0, hev]

/-- C10, witness: empty checks against a fetch reporting a failed entry
still succeed immediately with one fetch and no sleep. -/
theorem waitForChecks_empty_checks_witness :
    waitForChecks [] ⟨1, 2, 2⟩ (fun _ => 0)
      (fun _ => .ok [⟨"B", "failure"⟩]) (fun _ => true) 5 =
      ⟨.success, 1, []⟩ :=
  waitForChecks_empty_checks ⟨1, 2, 2⟩ (fun _ => 0)
    (fun _ => .ok [⟨"B", "failure"⟩]) (fun _ => true) 5
    [⟨"B", "failure"⟩] rfl (by decide)

/-! ### Classification lemmas -/

/-- When every check kind is `"status"` or `"action"`, classification
succeeds, and the accumulated action list is empty exactly when no check
has kind `"action"`. -/
lemma classify_ok : ∀ (checks : List Check),
    (∀ c ∈ checks, c.CheckType = "status" ∨ c.CheckType = "action") →
    ∃ ss as, classify checks = .ok ss as ∧
      (as = [] ↔ ∀ c ∈ checks, c.CheckType ≠ "action") := by
  intro checks
  induction checks with
  | nil => intro _; exact ⟨[], [], rfl, by simp⟩
  | cons c cs ih =>
    intro hvalid
    obtain ⟨ss, as, hcs, hiff⟩ :=
      ih fun d hd => hvalid d (List.mem_cons_of_mem c hd)
    rcases hvalid c (List.mem_cons_self c cs) with hc | hc
    · refine ⟨c.Name :: ss, as, ?_, ?_⟩
      · simp only [classify, hc, if_true, hcs]
      · rw [hiff]
        constructor
        · intro h d hd
          rcases List.mem_cons.mp hd with rfl | hd
          · rw [hc]; decide
          · exact h d hd
        · intro h d hd
          exact h d (List.mem_cons_of_mem c hd)
    · refine ⟨ss, c.Name :: as, ?_, ?_⟩
      · have hne : ¬(c.CheckType = "status") := by rw [hc]; decide
        simp only [classify, hne, if_false, hc, if_true, hcs]
        rw [if_neg (by decide)]
      · constructor
        · intro h; cases h
        · intro h
          exact absurd hc (h c (List.mem_cons_self c cs))

/-! ### C5 -/

/-- C5, counterexample: a checks list that does contain an `action` check
but also a check of unknown kind makes `waitForChecks` return the
unknown-check-type error, not the unsupported-check-type error the claim
requires (the classification loop returns on the unknown kind first). -/
theorem waitForChecks_action_with_unknown_kind :
    (Check.mk "Y" "action") ∈ [Check.mk "X" "bogus", Check.mk "Y" "action"] ∧
    waitForChecks [⟨"X", "bogus"⟩, ⟨"Y", "action"⟩] ⟨1, 2, 2⟩ (fun _ => 0)
      (fun _ => .ok []) (fun _ => false) 1 = ⟨.unknownCheckType, 0, []⟩ ∧
    WaitResult.unknownCheckType ≠ .unsupportedCheckType := by decide

/-- C5, amended: for every checks list whose checks all have kind
`"status"` or `"action"` and that contains at least one `"action"` check,
`waitForChecks` returns the distinct unsupported-check-type error having
performed no status fetch and no sleep, so it never reaches a
pending/continue-polling outcome. -/
theorem waitForChecks_unsupported_action (checks : List Check)
    (s : BackoffStrategy) (r : Nat → ℚ)
    (fetch : Nat → Except String (List RepoStatus)) (ctxDone : Nat → Bool)
    (fuel : Nat)
    (hvalid : ∀ c ∈ checks, c.CheckType = "status" ∨ c.CheckType = "action")
    (hact : ∃ c ∈ checks, c.CheckType = "action") :
    waitForChecks checks s r fetch ctxDone fuel =
      ⟨.unsupportedCheckType, 0, []⟩ := by
  obtain ⟨ss, as, hcl, hiff⟩ := classify_ok checks hvalid
  have hne : as ≠ [] := by
    intro h
    obtain ⟨c, hc, hty⟩ := hact
    exact hiff.mp h c hc hty
  have hlen : as.length > 0 := List.length_pos.mpr hne
  simp only [waitForChecks, hcl, hlen, if_true]

/-- C5, witness: a valid status check together with an action check yields
the unsupported-check-type error with zero fetches and no sleeps. -/
theorem waitForChecks_unsupported_action_witness :
    waitForChecks [⟨"A", "status"⟩, ⟨"B", "action"⟩] ⟨1, 2, 2⟩ (fun _ => 0)
      (fun _ => .ok []) (fun _ => false) 3 =
      ⟨.unsupportedCheckType, 0, []⟩ :=
  waitForChecks_unsupported_action [⟨"A", "status"⟩, ⟨"B", "action"⟩]
    ⟨1, 2, 2⟩ (fun _ => 0) (fun _ => .ok []) (fun _ => false) 3
    (by decide) ⟨⟨"B", "action"⟩, by decide, rfl⟩

/-! ### Backoff lemmas -/

/-- With a positive minimum, `min <= max`, a growth factor of at least one
and a jitter draw in `[0, 1]`, every computed backoff interval lies
between the configured minimum and maximum. -/
lemma forAttempt_bounds (m M f rv : ℚ) (n : Nat) (hm : 0 < m) (hmm : m ≤ M)
    (hf : 1 ≤ f) (_hr0 : 0 ≤ rv) (_hr1 : rv ≤ 1) :
    m ≤ forAttempt m M f n rv ∧ forAttempt m M f n rv ≤ M := by
  have e1 : (if m ≤ 0 then (100000000 : ℚ) else m) = m :=
    if_neg (not_le.mpr hm)
  have e2 : (if M ≤ 0 then (10000000000 : ℚ) else M) = M :=
    if_neg (not_le.mpr (lt_of_lt_of_le hm hmm))
  have e3 : (if f ≤ 0 then (2 : ℚ) else f) = f :=
    if_neg (not_le.mpr (lt_of_lt_of_le zero_lt_one hf))
  simp only [forAttempt, e1, e2, e3]
  by_cases hMm : M ≤ m
  · rw [if_pos hMm]; exact ⟨hmm, le_refl M⟩
  · rw [if_neg hMm]
    have hfn : (1 : ℚ) ≤ f ^ n := one_le_pow₀ hf
    have hd0 : m ≤ m * f ^ n := le_mul_of_one_le_right (le_of_lt hm) hfn
    by_cases hbig : jmaxInt64 < rv * (m * f ^ n - m) + m
    · rw [if_pos hbig]; exact ⟨hmm, le_refl M⟩
    · rw [if_neg hbig]
      by_cases hlow : ((⌊rv * (m * f ^ n - m) + m⌋ : ℤ) : ℚ) < m
      · rw [if_pos hlow]; exact ⟨le_refl m, hmm⟩
      · rw [if_neg hlow]
        by_cases hhigh : M < ((⌊rv * (m * f ^ n - m) + m⌋ : ℤ) : ℚ)
        · rw [if_pos hhigh]; exact ⟨hmm, le_refl M⟩
        · rw [if_neg hhigh]; exact ⟨not_lt.mp hlow, not_lt.mp hhigh⟩

/-- The first backoff interval equals the configured minimum (attempt 0
leaves no room for jitter). -/
lemma forAttempt_zero (m M f rv : ℚ) (hm : 0 < m) (hmm : m ≤ M)
    (hmax : M ≤ jmaxInt64) :
    forAttempt m M f 0 rv = m := by
  have e1 : (if m ≤ 0 then (100000000 : ℚ) else m) = m :=
    if_neg (not_le.mpr hm)
  have e2 : (if M ≤ 0 then (10000000000 : ℚ) else M) = M :=
    if_neg (not_le.mpr (lt_of_lt_of_le hm hmm))
  simp only [forAttempt, e1, e2, pow_zero, mul_one, sub_self, mul_zero,
    zero_add]
  by_cases hMm : M ≤ m
  · rw [if_pos hMm]; exact le_antisymm hMm hmm
  · rw [if_neg hMm]
    rw [if_neg (not_lt.mpr (le_trans hmm hmax))]
    by_cases hlow : ((⌊m⌋ : ℤ) : ℚ) < m
    · rw [if_pos hlow]
    · rw [if_neg hlow]
      have heq : ((⌊m⌋ : ℤ) : ℚ) = m :=
        le_antisymm (Int.floor_le m) (not_lt.mp hlow)
      rw [heq, if_neg (not_lt.mpr hmm)]

/-! ### C2 -/

/-- C2, counterexample: a strategy meeting the claim's hypotheses
(`4 <= 100`, factor `2 >= 1`) with jitter draws inside `[0, 1]` produces
the intervals `7` then `4` on the second and third calls: the sequence the
jittered backoff of `waitForChecks` produces is not non-decreasing. -/
theorem backoffSeq_not_monotone :
    (0 : ℚ) < 4 ∧ (4 : ℚ) ≤ 100 ∧ (1 : ℚ) ≤ 2 ∧
    (0 : ℚ) ≤ 3 / 4 ∧ (3 / 4 : ℚ) ≤ 1 ∧
    backoffSeq ⟨4, 100, 2⟩ (fun n => if n = 1 then 3 / 4 else 0) 1 = 7 ∧
    backoffSeq ⟨4, 100, 2⟩ (fun n => if n = 1 then 3 / 4 else 0) 2 = 4 ∧
    ¬(backoffSeq ⟨4, 100, 2⟩ (fun n => if n = 1 then 3 / 4 else 0) 1 ≤
      backoffSeq ⟨4, 100, 2⟩ (fun n => if n = 1 then 3 / 4 else 0) 2) := by
  refine ⟨by norm_num, by norm_num, by norm_num, by norm_num, by norm_num,
    ?_, ?_, ?_⟩ <;> norm_num [backoffSeq, forAttempt, jmaxInt64]

/-- C2, amended: for every strategy with `0 < MinPollTime <= MaxPollTime`
(the maximum fitting in an int64 duration) and `PollBackoffFactor >= 1`,
and any jitter draws in `[0, 1]`, the backoff used inside `waitForChecks`
starts from exactly `MinPollTime` on the first call and every interval
stays between `MinPollTime` and `MaxPollTime`; because jitter is enabled
the sequence need not be non-decreasing. -/
theorem backoffSeq_bounds (s : BackoffStrategy) (r : Nat → ℚ)
    (hmin : 0 < s.MinPollTime) (hmm : s.MinPollTime ≤ s.MaxPollTime)
    (hf : 1 ≤ s.PollBackoffFactor) (hmax : s.MaxPollTime ≤ jmaxInt64)
    (hr : ∀ n, 0 ≤ r n ∧ r n ≤ 1) :
    backoffSeq s r 0 = s.MinPollTime ∧
    ∀ n, s.MinPollTime ≤ backoffSeq s r n ∧
      backoffSeq s r n ≤ s.MaxPollTime := by
  constructor
  · exact forAttempt_zero s.MinPollTime s.MaxPollTime s.PollBackoffFactor
      (r 0) hmin hmm hmax
  · intro n
    exact forAttempt_bounds s.MinPollTime s.MaxPollTime s.PollBackoffFactor
      (r n) n hmin hmm hf (hr n).1 (hr n).2

/-- C2, witness: for the strategy `(1, 2, 2)` with all-zero jitter draws,
the first interval is `1` and the fourth interval lies within `[1, 2]`. -/
theorem backoffSeq_bounds_witness :
    backoffSeq ⟨1, 2, 2⟩ (fun _ => 0) 0 = (1 : ℚ) ∧
    (1 : ℚ) ≤ backoffSeq ⟨1, 2, 2⟩ (fun _ => 0) 3 ∧
    backoffSeq ⟨1, 2, 2⟩ (fun _ => 0) 3 ≤ 2 :=
  ⟨(backoffSeq_bounds ⟨1, 2, 2⟩ (fun _ => 0) (by norm_num) (by norm_num)
      (by norm_num) (by norm_num [jmaxInt64])
      (fun n => ⟨le_refl 0, by norm_num⟩)).1,
    (backoffSeq_bounds ⟨1, 2, 2⟩ (fun _ => 0) (by norm_num) (by norm_num)
      (by norm_num) (by norm_num [jmaxInt64])
      (fun n => ⟨le_refl 0, by norm_num⟩)).2 3⟩

/-! ### Merge (pr.go) -/

/-- The fields of a fetched `github.PullRequest` read by `Merge`:
`Mergeable` is a nullable boolean pointer, modelled as `Option Bool`. -/
structure GithubPullRequest where
  Number : Nat
  Mergeable : Option Bool
deriving DecidableEq

/-- The merge response (`github.PullRequestMergeResult` projected to the
`SHA` field read by `Merge`). -/
structure MergeCommit where
  SHA : String
deriving DecidableEq

/-- The mutable fields of `ghpr.PR` that `Merge` touches. -/
structure PRState where
  Number : Nat
  PRSha : String
  MergedSha : String
deriving DecidableEq

/-- Outcome of `Merge`, one constructor per `return` of the Go method. -/
inductive MergeOutcome where
  | fetchFailed (e : String)
  | notMergeable
  | mergeFailed (e : String)
  | merged
deriving DecidableEq

/-- Model of `Merge` (pr.go lines 61-78): fetch the PR; when
`pr.Mergeable != nil && *pr.Mergeable` call the forge client's merge
capability and record `MergedSha`, otherwise return the
`"PR is not mergeable"` error.  The returned Bool records whether the
merge capability was invoked; `fetched` and `mergeCall` are the oracle
results of the two external calls. -/
def Merge (p : PRState) (fetched : Except String GithubPullRequest)
    (mergeCall : Except String MergeCommit) :
    PRState × MergeOutcome × Bool :=
  match fetched with
  | .error e => (p, .fetchFailed e, false)
  | .ok pr =>
    if pr.Mergeable = some true then
      match mergeCall with
      | .error e => (p, .mergeFailed e, true)
      | .ok merge => ({ p with MergedSha := merge.SHA }, .merged, true)
    else
      (p, .notMergeable, false)

/-! ### C8 -/

/-- C8: when the fetched PR reports mergeable as false or absent (nil),
`Merge` returns the "not mergeable" error, never invokes the forge
client's merge capability, and leaves the PR state — in particular
`MergedSha` — unchanged. -/
theorem merge_not_mergeable (p : PRState) (pr : GithubPullRequest)
    (mergeCall : Except String MergeCommit)
    (h : pr.Mergeable = some false ∨ pr.Mergeable = none) :
    Merge p (.ok pr) mergeCall = (p, .notMergeable, false) := by
  have hne : ¬(pr.Mergeable = some true) := by
    rcases h with h | h <;> rw [h] <;> simp
  simp only [Merge, hne, if_false]

/-- C8, witness: a PR fetched with `Mergeable = some false` is rejected
without calling merge and without touching `MergedSha`. -/
theorem merge_not_mergeable_witness :
    Merge ⟨7, "headsha", "oldsha"⟩ (.ok ⟨7, some false⟩)
      (.ok ⟨"newsha"⟩) = (⟨7, "headsha", "oldsha"⟩, .notMergeable, false) :=
  merge_not_mergeable ⟨7, "headsha", "oldsha"⟩ ⟨7, some false⟩
    (.ok ⟨"newsha"⟩) (Or.inl rfl)

/-! ### Create (ghpr.go) -/

/-- The externally observable steps of the `Create` workflow of
`ghpr.GithubPR`, including the deferred `Close` (temporary clone
directory removal). -/
inductive GitStep where
  | clone
  | pushCommit
  | raisePR
  | waitForPR
  | mergePR
  | waitForMergeCommit
  | close
deriving DecidableEq

/-- Oracle outcomes of the six sequenced workflow steps of `Create`
(`some e` is a step failing with error `e`). -/
structure CreateEnv where
  cloneErr : Option String
  pushCommitErr : Option String
  raisePRErr : Option String
  waitForPRErr : Option String
  mergePRErr : Option String
  waitForMergeCommitErr : Option String

/-- The body of `Create` (ghpr.go lines 289-318) without the deferred
call: run clone, push-commit, raise-PR, wait-for-PR, merge and
wait-for-merge-commit in order, stopping at the first failing step;
returns the error result and the trace of steps performed. -/
def createBody (env : CreateEnv) : Option String × List GitStep :=
  match env.cloneErr with
  | some e => (some e, [.clone])
  | none =>
    match env.pushCommitErr with
    | some e => (some e, [.clone, .pushCommit])
    | none =>
      match env.raisePRErr with
      | some e => (some e, [.clone, .pushCommit, .raisePR])
      | none =>
        match env.waitForPRErr with
        | some e => (some e, [.clone, .pushCommit, .raisePR, .waitForPR])
        | none =>
          match env.mergePRErr with
          | some e =>
            (some e, [.clone, .pushCommit, .raisePR, .waitForPR, .mergePR])
          | none =>
            (env.waitForMergeCommitErr,
              [.clone, .pushCommit, .raisePR, .waitForPR, .mergePR,
                .waitForMergeCommit])

/-- Model of `Create` (ghpr.go lines 289-318): `defer r.Close()` is registered
right after `Clone` returns — before its error is even inspected — so the
cleanup step runs when `Create` returns, after whatever prefix of the
body executed. -/
def Create (env : CreateEnv) : Option String × List GitStep :=
  ((createBody env).1, (createBody env).2 ++ [.close])

/-! ### C9 -/

/-- C9: on every execution of `Create` — success or failure at any of the
clone, push-commit, raise-PR, wait-for-PR-checks, merge and
wait-for-merge-checks steps — the temporary clone directory cleanup
(`Close`) is the last step performed before `Create` returns, and the
clone step it cleans up after is always the first. -/
theorem create_always_closes (env : CreateEnv) :
    (Create env).2.getLast? = some GitStep.close ∧
    (Create env).2.head? = some GitStep.clone := by
  constructor
  · exact List.getLast?_concat _
  · show ((createBody env).2 ++ [GitStep.close]).head? = some GitStep.clone
    rcases env with ⟨c, p, ra, w, m, wm⟩
    cases c <;> cases p <;> cases ra <;> cases w <;> cases m <;> rfl
